import Mathlib

/-!
The `ens` command-line client: bid, reveal and resolver commands.

A shallow embedding of `cmd/root.go`, `cmd/auctionbid.go`, `cmd/auctionreveal.go`
and `cmd/resolver.go`.

The commands are straight-line Go code that calls into external libraries
(`go-etherutils`, `go-ethereum`, `cobra`) and exits the process through the
`cli` helpers.  The embedding makes both explicit:

* the outside world is a record `World` of oracles, one per library function;
* a run of a command is an `Exec`: the ordered list of library calls performed
  (`trace`) and either the returned value or the message the process exited with.

Go strings are modelled by `String`; Go `*big.Int` by `Int`.
-/

namespace Ens

/-! ## Data model -/

/-- A 20-byte account identifier (`common.Address`). -/
structure Address where
  id : Nat
deriving DecidableEq

/-- A keystore wallet handle (`accounts.Wallet`). -/
structure Wallet where
  id : Nat
deriving DecidableEq

/-- An unlocked account handle (`accounts.Account`). -/
structure Account where
  id : Nat
deriving DecidableEq

/-- A bound contract handle (registrar or registry). -/
structure Contract where
  id : Nat
deriving DecidableEq

/-- A submitted transaction; `hash` is what `tx.Hash().Hex()` prints. -/
structure Tx where
  hash : String
deriving DecidableEq

/-- The registrar session built by `ens.CreateRegistrarSession`.  `value` and `nonce`
are the `TransactOpts.Value` and `TransactOpts.Nonce` fields the commands assign to.
`contract` is `none` for a nil contract pointer, `gasLimit` is `none` when the caller
passes no gas limit. -/
structure Session where
  chainID : Int
  wallet : Wallet
  account : Account
  passphrase : String
  contract : Option Contract
  gasLimit : Option Int
  gasPrice : Int
  value : Int
  nonce : Option Int
deriving DecidableEq

/-- The assignment `session.TransactOpts.Value = value`. -/
def Session.setValue (s : Session) (value : Int) : Session := { s with value := value }

/-- The assignment `session.TransactOpts.Nonce = nonce`. -/
def Session.setNonce (s : Session) (nonce : Int) : Session := { s with nonce := some nonce }

/-- One observable step of a run: a call into an external library, or output. -/
inductive Call where
  | openFile (path : String)
  | dial (connection : String)
  | networkID
  | registrarContract
  | registryContract
  | nameInState (registrar : Option Contract) (name state : String)
  | resolve (input : String)
  | obtainWallet (chainID : Int) (address : Address)
  | obtainAccount (wallet : Wallet) (address : Address) (passphrase : String)
  | obtainWalletAndAccount (address : Address) (passphrase : String)
  | stringToWei (input : String)
  | newBid (session : Session) (name : String) (bidder : Address) (value : Int) (salt : String)
  | revealBid (session : Session) (name : String) (bidder : Address) (value : Int) (salt : String)
  | resolver (registry : Option Contract) (name : String)
  | println (text : String)
  | logInfo (message : String)
deriving DecidableEq

/-- The external collaborators.  Every library function that returns `(value, err)` in Go
is an oracle returning `Except String value`. -/
structure World where
  /-- The call `os.OpenFile(logFile, ...)`. -/
  openFile : String → Except String Unit
  /-- The call `rpc.Dial(connection)`. -/
  dial : String → Except String Unit
  /-- The call `etherutils.NetworkID(ctx, c)`. -/
  networkID : Except String Int
  /-- The call `ens.RegistrarContract(client, rpcclient)`. -/
  registrarContract : Except String Contract
  /-- The call `ens.RegistryContract(client, rpcclient)`. -/
  registryContract : Except String Contract
  /-- The call `ens.NameInState(registrarContract, name, state)`: the phase query. -/
  nameInState : Option Contract → String → String → Except String Bool
  /-- The call `ens.Resolve(client, input, ...)`. -/
  resolve : String → Except String Address
  /-- The call `cli.ObtainWallet(chainID, address)`. -/
  obtainWallet : Int → Address → Except String Wallet
  /-- The call `cli.ObtainAccount(wallet, address, passphrase)`. -/
  obtainAccount : Wallet → Address → String → Except String Account
  /-- The helper `obtainWalletAndAccount(address, passphrase)` of package `cmd`; it is
  defined in another file of the package and is an oracle here, like the library calls. -/
  obtainWalletAndAccount : Address → String → Except String (Wallet × Account)
  /-- The call `etherutils.StringToWei(input)`: parse an amount such as `0.01 Ether`. -/
  stringToWei : String → Except String Int
  /-- The call `ens.NewBid(session, name, &address, bidPrice, salt)`. -/
  newBid : Session → String → Address → Int → String → Except String Tx
  /-- The call `ens.RevealBid(session, name, &address, bidPrice, salt)`. -/
  revealBid : Session → String → Address → Int → String → Except String Tx
  /-- The call `ens.Resolver(registryContract, name)`. -/
  resolver : Option Contract → String → Except String Address

/-- The package-level variables of package `cmd` that the four files read or write.
`auctionStartSalt`, `passphrase`, `gasPriceStr`, `nonce` and `registrarContract` are
declared in other files of the package; the commands read whatever value they hold. -/
structure Globals where
  logFile : String
  quiet : Bool
  connection : String
  chainID : Int
  auctionBidPassphrase : String
  auctionBidAddressStr : String
  auctionBidGasPriceStr : String
  auctionBidBidPriceStr : String
  auctionBidMaskPriceStr : String
  auctionBidSalt : String
  auctionStartSalt : String
  auctionRevealAddressStr : String
  auctionRevealBidPriceStr : String
  auctionRevealSalt : String
  passphrase : String
  gasPriceStr : String
  nonce : Int
  registrarContract : Option Contract

/-- The assignment to the package variable `chainID`. -/
def Globals.setChainID (g : Globals) (chainID : Int) : Globals := { g with chainID := chainID }

/-- The globals after the flag `--mask` of the bid command has been parsed as `mask`. -/
def Globals.withMask (g : Globals) (mask : String) : Globals :=
  { g with auctionBidMaskPriceStr := mask }

/-! ## Runs -/

instance {α : Type} [DecidableEq α] : DecidableEq (Except String α) := fun x y =>
  match x, y with
  | .ok a, .ok b => if h : a = b then isTrue (by rw [h]) else isFalse (fun e => h (by cases e; rfl))
  | .error a, .error b =>
    if h : a = b then isTrue (by rw [h]) else isFalse (fun e => h (by cases e; rfl))
  | .ok _, .error _ => isFalse (fun e => by cases e)
  | .error _, .ok _ => isFalse (fun e => by cases e)

/-- A run: the calls performed, in order, and how the run ended.  `Except.error msg` is the
process exiting with a failure status after a `cli` helper was handed the message `msg`
(or after the Go runtime aborted with `msg`). -/
structure Exec (α : Type) where
  trace : List Call
  result : Except String α

namespace Exec

/-- Return without any call. -/
def ret {α : Type} (a : α) : Exec α := ⟨[], .ok a⟩

/-- Sequencing: the second part runs only when the first returned. -/
def andThen {α β : Type} (x : Exec α) (f : α → Exec β) : Exec β :=
  match x.result with
  | .error e => ⟨x.trace, .error e⟩
  | .ok a => ⟨x.trace ++ (f a).trace, (f a).result⟩

instance : Monad Exec where
  pure := ret
  bind := andThen

/-- Perform one library call and hand back its Go result pair. -/
def call {α : Type} (c : Call) (r : Except String α) : Exec (Except String α) := ⟨[c], .ok r⟩

/-- Record an output step. -/
def emit (c : Call) : Exec Unit := ⟨[c], .ok ()⟩

/-- The run ended by exiting with a failure. -/
def Failed {α : Type} (x : Exec α) : Prop := ∃ msg, x.result = .error msg

instance {α : Type} (x : Exec α) : Decidable (Failed x) :=
  match h : x.result with
  | .error e => isTrue ⟨e, h⟩
  | .ok _ => isFalse (by rintro ⟨m, hm⟩; rw [h] at hm; cases hm)

end Exec

/-! ## The `cli` helpers of `go-etherutils`

Each of them prints the message unless `quiet` and then calls `os.Exit(1)`. -/

/-- The helper `cli.Err(quiet, msg)`: exit with a failure. -/
def cli.Err {α : Type} (_quiet : Bool) (msg : String) : Exec α := ⟨[], .error msg⟩

/-- The helper `cli.Assert(condition, quiet, msg)`: exit unless the condition holds. -/
def cli.Assert (condition : Bool) (quiet : Bool) (msg : String) : Exec Unit :=
  if condition then pure () else cli.Err quiet msg

/-- The helper `cli.ErrCheck(err, quiet, msg)` applied to the `err` of a Go result pair:
exit when `err != nil`, otherwise carry on with the value. -/
def cli.ErrCheck {α : Type} (r : Except String α) (quiet : Bool) (msg : String) : Exec α :=
  match r with
  | .ok a => pure a
  | .error _ => cli.Err quiet msg

/-- The helper `cli.ErrAssert(condition, err, quiet, msg)` applied to a Go result pair
`(condition, err)`: exit when `err != nil` or the condition is false. -/
def cli.ErrAssert (r : Except String Bool) (quiet : Bool) (msg : String) : Exec Unit :=
  match r with
  | .ok true => pure ()
  | .ok false => cli.Err quiet msg
  | .error _ => cli.Err quiet msg

/-- The value half of a Go result pair whose `err` is ignored: nil on error. -/
def ptrOf {α : Type} : Except String α → Option α
  | .ok a => some a
  | .error _ => none

/-- Go `strings.HasSuffix(s, suffix)`:
`len(s) >= len(suffix) && s[len(s)-len(suffix):] == suffix`.  Go compares bytes; on
well-formed UTF-8 text and an ASCII suffix such as `.eth` that is the same as comparing
characters, which is what is done here. -/
def hasSuffix (s suffix : String) : Bool :=
  decide (s.data.length ≥ suffix.data.length) &&
    decide (s.data.drop (s.data.length - suffix.data.length) = suffix.data)

/-- Go `x.Cmp(y)` on `*big.Int`: -1, 0 or +1. -/
def cmp (x y : Int) : Int :=
  if x < y then -1 else if x = y then 0 else 1

/-- Logging through logrus: `persistentPreRun` discards log output unless a log file is set. -/
def logInfo (g : Globals) (message : String) : Exec Unit :=
  if g.logFile = "" then pure () else Exec.emit (.logInfo message)

/-- Printing to standard output, done only when not quiet. -/
def printUnlessQuiet (g : Globals) (text : String) : Exec Unit :=
  if g.quiet then pure () else Exec.emit (.println text)

/-- The Go runtime aborting on `args[0]` of an empty slice. -/
def indexOutOfRange {α : Type} : Exec α := ⟨[], .error "panic: runtime error: index out of range"⟩

/-! ## `cmd/root.go` -/

/-- Lines 66 to 69 of `root.go`, the new value of `args[0]`:
`if !strings.HasSuffix(args[0], ".eth") { args[0] += ".eth" }`. -/
def normaliseName (name : String) : String :=
  if !hasSuffix name ".eth" then name ++ ".eth" else name

/-- The function `persistentPreRun(cmd, args)`.  It returns the globals it has set and the
argument slice, whose first element it may have rewritten in place. -/
def persistentPreRun (w : World) (g : Globals) (cmdName : String) (args : List String) :
    Exec (Globals × List String) :=
  if cmdName = "help" then pure (g, args) else do
    if args.length = 0 then cli.Err g.quiet "This command requires a name"
    match args with
    | [] => indexOutOfRange
    | name :: rest =>
      if name = "" then cli.Err g.quiet "This command requires a name"
      let name := normaliseName name
      if g.logFile ≠ "" then
        let f ← Exec.call (.openFile g.logFile) (w.openFile g.logFile)
        cli.ErrCheck f g.quiet "Failed to open log file"
      let c ← Exec.call (.dial g.connection) (w.dial g.connection)
      cli.ErrCheck c g.quiet "Failed to connect to Ethereum"
      cli.ErrCheck c g.quiet "Failed to connect to Ethereum"
      let c ← Exec.call (.dial g.connection) (w.dial g.connection)
      cli.ErrCheck c g.quiet "Failed to connect to Ethereum"
      let id ← Exec.call .networkID w.networkID
      let chainID ← cli.ErrCheck id g.quiet "Failed to obtain chain ID"
      pure (g.setChainID chainID, name :: rest)

/-- Cobra runs `PersistentPreRun(cmd, args)` and then `Run(cmd, args)` on the same
argument slice. -/
def execute (run : World → Globals → List String → Exec Unit) (cmdName : String)
    (w : World) (g : Globals) (args : List String) : Exec Unit := do
  let (g, args) ← persistentPreRun w g cmdName args
  run w g args

/-! ## `cmd/auctionbid.go` -/

/-- The library constructor `ens.CreateRegistrarSession`; a fresh session sends no value and
carries no explicit nonce. -/
def CreateRegistrarSession (chainID : Int) (wallet : Wallet) (account : Account)
    (passphrase : String) (contract : Option Contract) (gasLimit : Option Int)
    (gasPrice : Int) : Session :=
  { chainID := chainID, wallet := wallet, account := account, passphrase := passphrase,
    contract := contract, gasLimit := gasLimit, gasPrice := gasPrice, value := 0, nonce := none }

/-- The value of the variable `bidMask` after lines 71 to 77 of `auctionbid.go`, given the
result pair of `StringToWei(auctionBidMaskPriceStr)` and the bid price. -/
def bidMask (parsed : Except String Int) (bidPrice : Int) : Int :=
  match parsed with
  | .error _ => bidPrice
  | .ok mask => if cmp mask bidPrice = -1 then bidPrice else mask

/-- The `Run` function of `auctionBidCmd`.  The assignment that resets the transaction value
of the session to zero after the `NewBid` call is left out: the session is not used again. -/
def auctionBidCmd.Run (w : World) (g : Globals) (args : List String) : Exec Unit := do
  cli.Assert (g.auctionStartSalt != "") g.quiet "Salt is required"
  let rc ← Exec.call .registrarContract w.registrarContract
  let registrarContract := ptrOf rc
  match args with
  | [] => indexOutOfRange
  | name :: _ =>
    let inState ← Exec.call (.nameInState registrarContract name "Bidding")
      (w.nameInState registrarContract name "Bidding")
    cli.ErrAssert inState g.quiet "Name not in a suitable state to bid on an auction"
    let r ← Exec.call (.resolve g.auctionBidAddressStr) (w.resolve g.auctionBidAddressStr)
    let auctionBidAddress ← cli.ErrCheck r g.quiet "Failed to obtain auction address"
    let r ← Exec.call (.obtainWallet g.chainID auctionBidAddress)
      (w.obtainWallet g.chainID auctionBidAddress)
    let wallet ← cli.ErrCheck r g.quiet "Failed to obtain a wallet for the address"
    let r ← Exec.call (.obtainAccount wallet auctionBidAddress g.auctionBidPassphrase)
      (w.obtainAccount wallet auctionBidAddress g.auctionBidPassphrase)
    let account ← cli.ErrCheck r g.quiet "Failed to obtain an account for the address"
    let gasLimit : Int := 500000
    let r ← Exec.call (.stringToWei g.auctionBidGasPriceStr) (w.stringToWei g.auctionBidGasPriceStr)
    let gasPrice ← cli.ErrCheck r g.quiet "Invalid gas price"
    let session := CreateRegistrarSession g.chainID wallet account g.auctionBidPassphrase
      registrarContract (some gasLimit) gasPrice
    let r ← Exec.call (.stringToWei g.auctionBidBidPriceStr) (w.stringToWei g.auctionBidBidPriceStr)
    let bidPrice ← cli.ErrCheck r g.quiet "Invalid bid price"
    let r ← Exec.call (.stringToWei g.auctionBidMaskPriceStr)
      (w.stringToWei g.auctionBidMaskPriceStr)
    let bidMask := bidMask r bidPrice
    let session := session.setValue bidMask
    let r ← Exec.call (.newBid session name auctionBidAddress bidPrice g.auctionBidSalt)
      (w.newBid session name auctionBidAddress bidPrice g.auctionBidSalt)
    let tx ← cli.ErrCheck r g.quiet "Failed to send transaction"
    printUnlessQuiet g ("Transaction ID is " ++ tx.hash)
    logInfo g "Auction bid"

/-! ## `cmd/auctionreveal.go` -/

/-- Modelled from the spec: the helper `inState(name, state)` that the reveal command calls is
defined in another file of the package.  Following the spec (ValidatePhase succeeds exactly when the
phase reported by the registrar is the expected one), it puts the phase query to the
registrar and answers `true` only when the registrar reports the name in that phase;
a failed query is not a report of the expected phase. -/
def inState (w : World) (g : Globals) (name state : String) : Exec Bool := do
  let r ← Exec.call (.nameInState g.registrarContract name state)
    (w.nameInState g.registrarContract name state)
  match r with
  | .ok b => pure b
  | .error _ => pure false

/-- The `Run` function of `auctionRevealCmd`. -/
def auctionRevealCmd.Run (w : World) (g : Globals) (args : List String) : Exec Unit := do
  cli.Assert (g.auctionRevealSalt != "") g.quiet "Salt is required"
  match args with
  | [] => indexOutOfRange
  | name :: _ =>
    let ok ← inState w g name "Revealing"
    cli.Assert ok g.quiet "Domain not in a suitable state to reveal a bid"
    let r ← Exec.call (.resolve g.auctionRevealAddressStr) (w.resolve g.auctionRevealAddressStr)
    let auctionRevealAddress ← cli.ErrCheck r g.quiet "Failed to obtain auction address"
    let r ← Exec.call (.obtainWalletAndAccount auctionRevealAddress g.passphrase)
      (w.obtainWalletAndAccount auctionRevealAddress g.passphrase)
    let (wallet, account) ← cli.ErrCheck r g.quiet
      "Failed to obtain account details for the owner of the name"
    let r ← Exec.call (.stringToWei g.gasPriceStr) (w.stringToWei g.gasPriceStr)
    let gasPrice ← cli.ErrCheck r g.quiet "Invalid gas price"
    let session := CreateRegistrarSession g.chainID wallet account g.passphrase
      g.registrarContract none gasPrice
    let session := if g.nonce ≠ -1 then session.setNonce g.nonce else session
    let r ← Exec.call (.stringToWei g.auctionRevealBidPriceStr)
      (w.stringToWei g.auctionRevealBidPriceStr)
    let bidPrice ← cli.ErrCheck r g.quiet "Invalid bid price"
    let r ← Exec.call (.revealBid session name auctionRevealAddress bidPrice g.auctionRevealSalt)
      (w.revealBid session name auctionRevealAddress bidPrice g.auctionRevealSalt)
    let tx ← cli.ErrCheck r g.quiet "Failed to send transaction"
    printUnlessQuiet g ("Transaction ID is " ++ tx.hash)
    logInfo g "Auction reveal"

/-! ## `cmd/resolver.go` -/

/-- The method `Hex()` of an address, as printed by the resolver command. -/
def Address.Hex (a : Address) : String := "0x" ++ String.mk (Nat.toDigits 16 a.id)

/-- The `Run` function of `resolverCmd`. -/
def resolverCmd.Run (w : World) (g : Globals) (args : List String) : Exec Unit := do
  let rc ← Exec.call .registrarContract w.registrarContract
  let registrarContract := ptrOf rc
  match args with
  | [] => indexOutOfRange
  | name :: _ =>
    let inState ← Exec.call (.nameInState registrarContract name "Owned")
      (w.nameInState registrarContract name "Owned")
    cli.ErrAssert inState g.quiet "Name not in a suitable state to obtain the resolver"
    let r ← Exec.call .registryContract w.registryContract
    let registryContract ← cli.ErrCheck r g.quiet "Failed to obtain registry contract"
    let r ← Exec.call (.resolver (some registryContract) name)
      (w.resolver (some registryContract) name)
    let resolver ← cli.ErrCheck r g.quiet "No resolver for that name"
    printUnlessQuiet g resolver.Hex

/-! ## Observations on traces -/

/-- The `(name, bidder, value, salt)` arguments of a `NewBid` call. -/
def Call.newBidArgs : Call → Option (String × Address × Int × String)
  | .newBid _ name bidder value salt => some (name, bidder, value, salt)
  | _ => none

/-- The `(name, bidder, value, salt)` arguments of a `RevealBid` call. -/
def Call.revealBidArgs : Call → Option (String × Address × Int × String)
  | .revealBid _ name bidder value salt => some (name, bidder, value, salt)
  | _ => none

/-- The transaction value (`session.TransactOpts.Value`) sent with a `NewBid` call. -/
def Call.newBidTxValue : Call → Option Int
  | .newBid session _ _ _ _ => some session.value
  | _ => none

/-- The session of a `NewBid` call with its transaction value blanked out. -/
def Call.newBidSessionSansValue : Call → Option Session
  | .newBid session _ _ _ _ => some (session.setValue 0)
  | _ => none

/-- Whether a call is the resolver lookup `ens.Resolver`. -/
def Call.isResolver : Call → Bool
  | .resolver _ _ => true
  | _ => false

/-- Whether a call talks to the Ethereum node or the keystore: the registrar-contract
lookup, the phase query, the address resolution and the wallet and account lookups. -/
def Call.isLookup : Call → Bool
  | .registrarContract => true
  | .nameInState _ _ _ => true
  | .resolve _ => true
  | .obtainWallet _ _ => true
  | .obtainAccount _ _ _ => true
  | _ => false

/-- The escrow amount as the spec words it (operation ResolveMask): the requested mask when
it is at least the bid value, the bid value otherwise; `none` is an absent mask. -/
def ResolveMask (bidValue : Int) (requestedMask : Option Int) : Int :=
  match requestedMask with
  | some mask => if mask ≥ bidValue then mask else bidValue
  | none => bidValue

/-- The checks of the bid command that come before any amount is parsed all pass: the salt
check, the phase check, the address resolution and the wallet and account lookups. -/
def BidLookupsPass (w : World) (g : Globals) (name : String) (a : Address) (wallet : Wallet)
    (account : Account) : Prop :=
  g.auctionStartSalt ≠ "" ∧
  w.nameInState (ptrOf w.registrarContract) name "Bidding" = .ok true ∧
  w.resolve g.auctionBidAddressStr = .ok a ∧
  w.obtainWallet g.chainID a = .ok wallet ∧
  w.obtainAccount wallet a g.auctionBidPassphrase = .ok account

/-- Every check the bid command makes before it calls `NewBid` passes: those of
`BidLookupsPass`, then the parsing of the gas price and of the bid price. -/
def BidChecksPass (w : World) (g : Globals) (name : String) (a : Address) (wallet : Wallet)
    (account : Account) (gasPrice v : Int) : Prop :=
  BidLookupsPass w g name a wallet account ∧
  w.stringToWei g.auctionBidGasPriceStr = .ok gasPrice ∧
  w.stringToWei g.auctionBidBidPriceStr = .ok v

/-- The checks of the reveal command that come before any amount is parsed all pass: the salt
check, the phase check, the address resolution and the wallet and account lookup. -/
def RevealLookupsPass (w : World) (g : Globals) (name : String) (a : Address) (wallet : Wallet)
    (account : Account) : Prop :=
  g.auctionRevealSalt ≠ "" ∧
  w.nameInState g.registrarContract name "Revealing" = .ok true ∧
  w.resolve g.auctionRevealAddressStr = .ok a ∧
  w.obtainWalletAndAccount a g.passphrase = .ok (wallet, account)

/-- Every check the reveal command makes before it calls `RevealBid` passes: those of
`RevealLookupsPass`, then the parsing of the gas price and of the bid price. -/
def RevealChecksPass (w : World) (g : Globals) (name : String) (a : Address) (wallet : Wallet)
    (account : Account) (gasPrice v : Int) : Prop :=
  RevealLookupsPass w g name a wallet account ∧
  w.stringToWei g.gasPriceStr = .ok gasPrice ∧
  w.stringToWei g.auctionRevealBidPriceStr = .ok v

/-- The session the reveal command has built when it calls `RevealBid`. -/
def revealSession (g : Globals) (wallet : Wallet) (account : Account) (gasPrice : Int) :
    Session :=
  if g.nonce ≠ -1 then
    (CreateRegistrarSession g.chainID wallet account g.passphrase g.registrarContract none
      gasPrice).setNonce g.nonce
  else
    CreateRegistrarSession g.chainID wallet account g.passphrase g.registrarContract none gasPrice

/-- The session the bid command has built when it calls `NewBid`. -/
def bidSession (w : World) (g : Globals) (wallet : Wallet) (account : Account)
    (gasPrice v : Int) : Session :=
  (CreateRegistrarSession g.chainID wallet account g.auctionBidPassphrase
    (ptrOf w.registrarContract) (some 500000) gasPrice).setValue
    (bidMask (w.stringToWei g.auctionBidMaskPriceStr) v)

/-- The calls the bid command makes up to and including `NewBid` when every check passes. -/
def bidCalls (w : World) (g : Globals) (name : String) (a : Address) (wallet : Wallet)
    (account : Account) (gasPrice v : Int) : List Call :=
  [.registrarContract,
   .nameInState (ptrOf w.registrarContract) name "Bidding",
   .resolve g.auctionBidAddressStr,
   .obtainWallet g.chainID a,
   .obtainAccount wallet a g.auctionBidPassphrase,
   .stringToWei g.auctionBidGasPriceStr,
   .stringToWei g.auctionBidBidPriceStr,
   .stringToWei g.auctionBidMaskPriceStr,
   .newBid (bidSession w g wallet account gasPrice v) name a v g.auctionBidSalt]

/-- Whether a call is output only: a line printed or a log entry. -/
def Call.isOutput : Call → Bool
  | .println _ => true
  | .logInfo _ => true
  | _ => false

/-! ## A sample world -/

/-- A world in which every call succeeds: the registrar reports every name in phase
`phase`, amounts are decimal wei figures from a small table, and every address string
resolves to the same account. -/
def sampleWorld (phase : String) : World where
  openFile _ := .ok ()
  dial _ := .ok ()
  networkID := .ok 1
  registrarContract := .ok ⟨1⟩
  registryContract := .ok ⟨2⟩
  nameInState _ _ state := .ok (state == phase)
  resolve _ := .ok ⟨7⟩
  obtainWallet _ _ := .ok ⟨3⟩
  obtainAccount _ _ _ := .ok ⟨4⟩
  obtainWalletAndAccount _ _ := .ok (⟨3⟩, ⟨4⟩)
  stringToWei s :=
    if s = "1000" then .ok 1000 else if s = "500" then .ok 500
    else if s = "2000" then .ok 2000 else if s = "20" then .ok 20
    else .error "failed to parse amount"
  newBid _ _ _ _ _ := .ok ⟨"0xb1d"⟩
  revealBid _ _ _ _ _ := .ok ⟨"0x4e7"⟩
  resolver _ _ := .ok ⟨9⟩

/-- A world like `sampleWorld`, except that the phase query itself fails. -/
def offlineWorld : World :=
  { sampleWorld "Owned" with nameInState := fun _ _ _ => .error "no contract code at given address" }

/-- The five lookups the bid command makes before it parses any amount. -/
def bidLookups (w : World) (g : Globals) (name : String) (a : Address) (wallet : Wallet) :
    List Call :=
  [.registrarContract,
   .nameInState (ptrOf w.registrarContract) name "Bidding",
   .resolve g.auctionBidAddressStr,
   .obtainWallet g.chainID a,
   .obtainAccount wallet a g.auctionBidPassphrase]

/-- Sample globals: a bid of 1000 wei with mask `mask`, salt `bidSalt` on the bid command
and `startSalt` in the variable of the start command. -/
def sampleGlobals (mask bidSalt startSalt : String) : Globals where
  logFile := ""
  quiet := false
  connection := "https://api.orinocopay.com:8546/"
  chainID := 0
  auctionBidPassphrase := "secret"
  auctionBidAddressStr := "0x5FfC014343cd971B7eb70732021E26C35B744cc4"
  auctionBidGasPriceStr := "20"
  auctionBidBidPriceStr := "1000"
  auctionBidMaskPriceStr := mask
  auctionBidSalt := bidSalt
  auctionStartSalt := startSalt
  auctionRevealAddressStr := "0x5FfC014343cd971B7eb70732021E26C35B744cc4"
  auctionRevealBidPriceStr := "1000"
  auctionRevealSalt := bidSalt
  passphrase := "secret"
  gasPriceStr := "20"
  nonce := -1
  registrarContract := some ⟨1⟩

/-- Sample globals whose gas-price strings are malformed. -/
def badGasGlobals : Globals :=
  { sampleGlobals "" "s" "x" with auctionBidGasPriceStr := "twenty", gasPriceStr := "twenty" }

/-- Sample globals whose bid-value strings are malformed. -/
def badBidGlobals : Globals :=
  { sampleGlobals "" "s" "x" with
    auctionBidBidPriceStr := "a lot", auctionRevealBidPriceStr := "a lot" }

/-! ## Reasoning about runs -/

namespace Exec

@[simp] theorem trace_pure {α : Type} (a : α) : (pure a : Exec α).trace = [] := rfl

@[simp] theorem result_pure {α : Type} (a : α) : (pure a : Exec α).result = .ok a := rfl

@[simp] theorem trace_call {α : Type} (c : Call) (r : Except String α) :
    (call c r).trace = [c] := rfl

@[simp] theorem result_call {α : Type} (c : Call) (r : Except String α) :
    (call c r).result = .ok r := rfl

@[simp] theorem trace_emit (c : Call) : (emit c).trace = [c] := rfl

@[simp] theorem result_emit (c : Call) : (emit c).result = .ok () := rfl

theorem bind_def {α β : Type} (x : Exec α) (f : α → Exec β) : x >>= f = andThen x f := rfl

theorem failed_iff {α : Type} (x : Exec α) : Failed x ↔ ∀ a, x.result ≠ .ok a := by
  unfold Failed
  cases x.result <;> simp

theorem mem_trace_bind {α β : Type} (x : Exec α) (f : α → Exec β) (c : Call) :
    c ∈ (x >>= f).trace ↔ c ∈ x.trace ∨ ∃ a, x.result = .ok a ∧ c ∈ (f a).trace := by
  show c ∈ (andThen x f).trace ↔ _
  unfold andThen
  cases h : x.result <;> simp

theorem result_bind_ok {α β : Type} (x : Exec α) (f : α → Exec β) (b : β) :
    (x >>= f).result = .ok b ↔ ∃ a, x.result = .ok a ∧ (f a).result = .ok b := by
  show (andThen x f).result = .ok b ↔ _
  unfold andThen
  cases h : x.result <;> simp

theorem result_bind_error {α β : Type} (x : Exec α) (f : α → Exec β) (e : String) :
    (x >>= f).result = .error e ↔
      x.result = .error e ∨ ∃ a, x.result = .ok a ∧ (f a).result = .error e := by
  show (andThen x f).result = .error e ↔ _
  unfold andThen
  cases h : x.result <;> simp

end Exec

@[simp] theorem cli.trace_Err {α : Type} (q : Bool) (msg : String) :
    (cli.Err q msg : Exec α).trace = [] := rfl

@[simp] theorem cli.result_Err {α : Type} (q : Bool) (msg : String) :
    (cli.Err q msg : Exec α).result = .error msg := rfl

@[simp] theorem cli.trace_Assert (c q : Bool) (msg : String) : (cli.Assert c q msg).trace = [] := by
  cases c <;> rfl

theorem cli.result_Assert_ok (c q : Bool) (msg : String) (u : Unit) :
    (cli.Assert c q msg).result = .ok u ↔ c = true := by
  cases c <;> simp [cli.Assert]

theorem cli.result_Assert_error (c q : Bool) (msg e : String) :
    (cli.Assert c q msg).result = .error e ↔ c = false ∧ e = msg := by
  cases c <;> simp [cli.Assert, eq_comm]

@[simp] theorem cli.trace_ErrCheck {α : Type} (r : Except String α) (q : Bool) (msg : String) :
    (cli.ErrCheck r q msg).trace = [] := by
  cases r <;> rfl

theorem cli.result_ErrCheck_ok {α : Type} (r : Except String α) (q : Bool) (msg : String) (a : α) :
    (cli.ErrCheck r q msg).result = .ok a ↔ r = .ok a := by
  cases r <;> simp [cli.ErrCheck]

theorem cli.result_ErrCheck_error {α : Type} (r : Except String α) (q : Bool) (msg e : String) :
    (cli.ErrCheck r q msg).result = .error e ↔ (∃ e', r = .error e') ∧ e = msg := by
  cases r <;> simp [cli.ErrCheck, eq_comm]

@[simp] theorem cli.trace_ErrAssert (r : Except String Bool) (q : Bool) (msg : String) :
    (cli.ErrAssert r q msg).trace = [] := by
  rcases r with _ | (_ | _) <;> rfl

theorem cli.result_ErrAssert_ok (r : Except String Bool) (q : Bool) (msg : String) (u : Unit) :
    (cli.ErrAssert r q msg).result = .ok u ↔ r = .ok true := by
  rcases r with _ | (_ | _) <;> simp [cli.ErrAssert]

theorem cli.result_ErrAssert_error (r : Except String Bool) (q : Bool) (msg e : String) :
    (cli.ErrAssert r q msg).result = .error e ↔ r ≠ .ok true ∧ e = msg := by
  rcases r with _ | (_ | _) <;> simp [cli.ErrAssert, eq_comm]

theorem mem_trace_printUnlessQuiet (g : Globals) (text : String) (c : Call) :
    c ∈ (printUnlessQuiet g text).trace ↔ g.quiet = false ∧ c = .println text := by
  unfold printUnlessQuiet
  cases g.quiet <;> simp

@[simp] theorem result_printUnlessQuiet (g : Globals) (text : String) :
    (printUnlessQuiet g text).result = .ok () := by
  unfold printUnlessQuiet
  cases g.quiet <;> simp

theorem mem_trace_logInfo (g : Globals) (message : String) (c : Call) :
    c ∈ (logInfo g message).trace ↔ g.logFile ≠ "" ∧ c = .logInfo message := by
  unfold logInfo
  by_cases h : g.logFile = "" <;> simp [h]

@[simp] theorem result_logInfo (g : Globals) (message : String) :
    (logInfo g message).result = .ok () := by
  unfold logInfo
  by_cases h : g.logFile = "" <;> simp [h]

/-- Every `NewBid` call of the bid command is made with the first argument as name, the
resolved address, the parsed bid price and the salt flag, on a session whose value is
`bidMask`, and only after every check of the command has passed. -/
theorem newBid_mem_bid {w : World} {g : Globals} {args : List String} {s : Session}
    {n : String} {a : Address} {v : Int} {salt : String}
    (h : Call.newBid s n a v salt ∈ (auctionBidCmd.Run w g args).trace) :
    (∃ rest, args = n :: rest) ∧ salt = g.auctionBidSalt ∧
    ∃ wallet account gasPrice, BidChecksPass w g n a wallet account gasPrice v ∧
      s = bidSession w g wallet account gasPrice v := by
  unfold auctionBidCmd.Run at h
  cases args with
  | nil => simp [Exec.mem_trace_bind, indexOutOfRange] at h
  | cons name rest =>
    simp [Exec.mem_trace_bind, cli.result_Assert_ok, cli.result_ErrCheck_ok,
      cli.result_ErrAssert_ok, mem_trace_printUnlessQuiet, mem_trace_logInfo] at h
    obtain ⟨hs, hp, a1, ha, wl, hw, ac, hac, gp, hg, bp, hb, rfl, rfl, rfl, rfl, rfl⟩ := h
    exact ⟨⟨rest, rfl⟩, rfl, wl, ac, gp, ⟨⟨hs, hp, ha, hw, hac⟩, hg, hb⟩, rfl⟩

/-- When every check passes, the bid command makes exactly the calls of `bidCalls`, followed
by output only, and it returns exactly when `NewBid` does. -/
theorem bid_run_of_checks {w : World} {g : Globals} {name : String} {a : Address}
    {wallet : Wallet} {account : Account} {gasPrice v : Int}
    (h : BidChecksPass w g name a wallet account gasPrice v) (rest : List String) :
    ∃ tail, (auctionBidCmd.Run w g (name :: rest)).trace =
        bidCalls w g name a wallet account gasPrice v ++ tail ∧
      (∀ c ∈ tail, c.isOutput = true) ∧
      ((auctionBidCmd.Run w g (name :: rest)).result = .ok () ↔
        ∃ tx, w.newBid (bidSession w g wallet account gasPrice v) name a v g.auctionBidSalt
          = .ok tx) := by
  obtain ⟨⟨hs, hp, ha, hw, hac⟩, hg, hb⟩ := h
  cases hn : w.newBid (bidSession w g wallet account gasPrice v) name a v g.auctionBidSalt with
  | error e =>
    refine ⟨[], ?_, by simp, ?_⟩ <;>
      simp [bidSession] at hn <;>
      simp [auctionBidCmd.Run, Exec.bind_def, Exec.andThen, cli.Assert, cli.ErrAssert,
        cli.ErrCheck, cli.Err, Exec.call, hs, hp, ha, hw, hac, hg, hb, hn, bidCalls, bidSession]
  | ok tx =>
    refine ⟨(printUnlessQuiet g ("Transaction ID is " ++ tx.hash)).trace ++
      (logInfo g "Auction bid").trace, ?_, ?_, ?_⟩
    · simp [bidSession] at hn
      simp [auctionBidCmd.Run, Exec.bind_def, Exec.andThen, cli.Assert, cli.ErrAssert,
        cli.ErrCheck, cli.Err, Exec.call, hs, hp, ha, hw, hac, hg, hb, hn, bidCalls, bidSession]
    · intro c hc
      simp [mem_trace_printUnlessQuiet, mem_trace_logInfo] at hc
      rcases hc with ⟨-, rfl⟩ | ⟨-, rfl⟩ <;> rfl
    · simp [bidSession] at hn
      simp [auctionBidCmd.Run, Exec.bind_def, Exec.andThen, cli.Assert, cli.ErrAssert,
        cli.ErrCheck, cli.Err, Exec.call, hs, hp, ha, hw, hac, hg, hb, hn, bidCalls, bidSession]

/-- When the bid command returns, every check has passed. -/
theorem bid_result_ok {w : World} {g : Globals} {args : List String} {u : Unit}
    (h : (auctionBidCmd.Run w g args).result = .ok u) :
    ∃ name rest a wallet account gasPrice v, args = name :: rest ∧
      BidChecksPass w g name a wallet account gasPrice v := by
  cases args with
  | nil =>
    simp [auctionBidCmd.Run, Exec.result_bind_ok, cli.result_Assert_ok, indexOutOfRange] at h
  | cons name rest =>
    simp [auctionBidCmd.Run, Exec.result_bind_ok, cli.result_Assert_ok, cli.result_ErrCheck_ok,
      cli.result_ErrAssert_ok] at h
    obtain ⟨hs, hp, a, ha, wl, hw, ac, hac, gp, hg, bp, hb, -⟩ := h
    exact ⟨name, rest, a, wl, ac, gp, bp, rfl, ⟨hs, hp, ha, hw, hac⟩, hg, hb⟩

/-- When the bid command exits with a failure, the message names the first check that did
not pass, all checks before it having passed. -/
theorem bid_result_error {w : World} {g : Globals} {name : String} {rest : List String}
    {e : String} (h : (auctionBidCmd.Run w g (name :: rest)).result = .error e) :
    (g.auctionStartSalt = "" ∧ e = "Salt is required") ∨
    (g.auctionStartSalt ≠ "" ∧
      ((w.nameInState (ptrOf w.registrarContract) name "Bidding" ≠ .ok true ∧
          e = "Name not in a suitable state to bid on an auction") ∨
       (w.nameInState (ptrOf w.registrarContract) name "Bidding" = .ok true ∧
        (((∃ e', w.resolve g.auctionBidAddressStr = .error e') ∧
            e = "Failed to obtain auction address") ∨
         ∃ a, w.resolve g.auctionBidAddressStr = .ok a ∧
          (((∃ e', w.obtainWallet g.chainID a = .error e') ∧
              e = "Failed to obtain a wallet for the address") ∨
           ∃ wallet, w.obtainWallet g.chainID a = .ok wallet ∧
            (((∃ e', w.obtainAccount wallet a g.auctionBidPassphrase = .error e') ∧
                e = "Failed to obtain an account for the address") ∨
             ∃ account, w.obtainAccount wallet a g.auctionBidPassphrase = .ok account ∧
              (((∃ e', w.stringToWei g.auctionBidGasPriceStr = .error e') ∧
                  e = "Invalid gas price") ∨
               ∃ gasPrice, w.stringToWei g.auctionBidGasPriceStr = .ok gasPrice ∧
                (((∃ e', w.stringToWei g.auctionBidBidPriceStr = .error e') ∧
                    e = "Invalid bid price") ∨
                 ∃ v, w.stringToWei g.auctionBidBidPriceStr = .ok v ∧
                  (∃ e', w.newBid (bidSession w g wallet account gasPrice v) name a v
                      g.auctionBidSalt = .error e') ∧
                   e = "Failed to send transaction")))))))) := by
  by_cases hs : g.auctionStartSalt = ""
  · left
    simp [auctionBidCmd.Run, Exec.bind_def, Exec.andThen, cli.Assert, cli.Err, hs] at h
    exact ⟨hs, h.symm⟩
  · right
    simp [auctionBidCmd.Run, Exec.result_bind_error, Exec.result_bind_ok, cli.result_Assert_ok,
      cli.result_ErrCheck_ok, cli.result_ErrAssert_ok, cli.result_Assert_error,
      cli.result_ErrCheck_error, cli.result_ErrAssert_error, hs] at h
    exact ⟨hs, h⟩

theorem mem_trace_inState (w : World) (g : Globals) (name state : String) (c : Call) :
    c ∈ (inState w g name state).trace ↔ c = .nameInState g.registrarContract name state := by
  unfold inState
  cases h : w.nameInState g.registrarContract name state <;>
    simp [Exec.mem_trace_bind, h]

theorem result_inState (w : World) (g : Globals) (name state : String) (b : Bool) :
    (inState w g name state).result = .ok b ↔
      (b = true ↔ w.nameInState g.registrarContract name state = .ok true) := by
  unfold inState
  rcases h : w.nameInState g.registrarContract name state with e | (_ | _) <;>
    cases b <;> simp [Exec.result_bind_ok, h]

theorem hasSuffix_iff (s suffix : String) :
    hasSuffix s suffix = true ↔ ∃ stem : String, s = stem ++ suffix := by
  unfold hasSuffix
  simp only [ge_iff_le, Bool.and_eq_true, decide_eq_true_eq]
  constructor
  · rintro ⟨-, hd⟩
    refine ⟨⟨s.data.take (s.data.length - suffix.data.length)⟩, ?_⟩
    apply String.ext
    rw [String.data_append]
    show s.data = s.data.take (s.data.length - suffix.data.length) ++ suffix.data
    have ht := List.take_append_drop (s.data.length - suffix.data.length) s.data
    rw [hd] at ht
    exact ht.symm
  · rintro ⟨stem, rfl⟩
    simp [String.data_append]

theorem normaliseName_of_hasSuffix {name : String} (h : hasSuffix name ".eth" = true) :
    normaliseName name = name := by
  simp [normaliseName, h]

theorem normaliseName_of_not_hasSuffix {name : String} (h : hasSuffix name ".eth" = false) :
    normaliseName name = name ++ ".eth" := by
  simp [normaliseName, h]

theorem hasSuffix_normaliseName (name : String) : hasSuffix (normaliseName name) ".eth" = true := by
  cases h : hasSuffix name ".eth"
  · rw [normaliseName_of_not_hasSuffix h, hasSuffix_iff]
    exact ⟨name, rfl⟩
  · rw [normaliseName_of_hasSuffix h, h]

theorem exists_unit_ok (r : Except String Unit) : (∃ x, r = .ok x) ↔ r = .ok () :=
  ⟨fun ⟨_, h⟩ => h, fun h => ⟨(), h⟩⟩

/-- What `persistentPreRun` hands on when it returns, for a command other than `help`. -/
theorem persistentPreRun_result_ok {w : World} {g g' : Globals} {cmdName name : String}
    {rest args' : List String} (hc : cmdName ≠ "help") :
    (persistentPreRun w g cmdName (name :: rest)).result = .ok (g', args') ↔
      name ≠ "" ∧ (g.logFile = "" ∨ w.openFile g.logFile = .ok ()) ∧
      w.dial g.connection = .ok () ∧
      ∃ id, w.networkID = .ok id ∧ g.setChainID id = g' ∧
        normaliseName name :: rest = args' := by
  unfold persistentPreRun
  by_cases hn : name = "" <;> by_cases hl : g.logFile = "" <;>
    simp [hc, hn, hl, Exec.result_bind_ok, cli.result_ErrCheck_ok, exists_unit_ok]

/-- The only calls `persistentPreRun` makes are opening the log file, dialling the node and
asking for the network id. -/
theorem mem_trace_persistentPreRun {w : World} {g : Globals} {cmdName : String}
    {args : List String} {c : Call} (h : c ∈ (persistentPreRun w g cmdName args).trace) :
    c = .openFile g.logFile ∨ c = .dial g.connection ∨ c = .networkID := by
  unfold persistentPreRun at h
  by_cases hc : cmdName = "help"
  · simp [hc] at h
  · cases args with
    | nil => simp [hc, Exec.mem_trace_bind, indexOutOfRange] at h
    | cons name rest =>
      by_cases hn : name = "" <;> by_cases hl : g.logFile = "" <;>
        simp [hc, hn, hl, Exec.mem_trace_bind] at h <;> tauto

/-- Every `RevealBid` call of the reveal command is made with the first argument as name,
the resolved address, the parsed bid price and the salt flag, and only after every check of
the command has passed. -/
theorem revealBid_mem_reveal {w : World} {g : Globals} {args : List String} {s : Session}
    {n : String} {a : Address} {v : Int} {salt : String}
    (h : Call.revealBid s n a v salt ∈ (auctionRevealCmd.Run w g args).trace) :
    (∃ rest, args = n :: rest) ∧ salt = g.auctionRevealSalt ∧
    ∃ wallet account gasPrice, RevealChecksPass w g n a wallet account gasPrice v ∧
      s = revealSession g wallet account gasPrice := by
  unfold auctionRevealCmd.Run at h
  cases args with
  | nil => simp [Exec.mem_trace_bind, indexOutOfRange] at h
  | cons name rest =>
    simp [Exec.mem_trace_bind, cli.result_Assert_ok, cli.result_ErrCheck_ok,
      mem_trace_inState, result_inState,
      mem_trace_printUnlessQuiet, mem_trace_logInfo] at h
    obtain ⟨hs, hp, a1, ha, wl, ac, hwa, gp, hg, bp, hb, hS, rfl, rfl, rfl, rfl⟩ := h
    refine ⟨⟨rest, rfl⟩, rfl, wl, ac, gp, ⟨⟨hs, hp, ha, hwa⟩, hg, hb⟩, ?_⟩
    rw [hS]
    unfold revealSession
    by_cases hn : g.nonce = -1 <;> simp [hn]

/-- When the reveal command returns, every check has passed. -/
theorem reveal_result_ok {w : World} {g : Globals} {args : List String} {u : Unit}
    (h : (auctionRevealCmd.Run w g args).result = .ok u) :
    ∃ name rest a wallet account gasPrice v, args = name :: rest ∧
      RevealChecksPass w g name a wallet account gasPrice v := by
  cases args with
  | nil =>
    simp [auctionRevealCmd.Run, Exec.result_bind_ok, cli.result_Assert_ok, indexOutOfRange] at h
  | cons name rest =>
    simp [auctionRevealCmd.Run, Exec.result_bind_ok, cli.result_Assert_ok,
      cli.result_ErrCheck_ok, result_inState] at h
    obtain ⟨hs, hp, a, ha, wl, ac, hwa, gp, hg, bp, hb, -⟩ := h
    exact ⟨name, rest, a, wl, ac, gp, bp, rfl, ⟨hs, hp, ha, hwa⟩, hg, hb⟩

theorem bidMask_eq_ResolveMask (parsed : Except String Int) (bidPrice : Int) :
    bidMask parsed bidPrice = ResolveMask bidPrice (ptrOf parsed) := by
  cases parsed with
  | error e => rfl
  | ok mask =>
    simp only [bidMask, ResolveMask, ptrOf, cmp]
    by_cases h : mask < bidPrice
    · simp [h, not_le.mpr h]
    · have h' : bidPrice ≤ mask := not_lt.mp h
      by_cases h2 : mask = bidPrice <;> simp [h, h', h2]

theorem newBidArgs_eq_none_of_not_mem {l : List Call}
    (h : ∀ s n a v salt, Call.newBid s n a v salt ∉ l) : ∀ c ∈ l, c.newBidArgs = none := by
  intro c hc
  cases c <;> first | rfl | exact absurd hc (h _ _ _ _ _)

theorem revealBidArgs_eq_none_of_not_mem {l : List Call}
    (h : ∀ s n a v salt, Call.revealBid s n a v salt ∉ l) :
    ∀ c ∈ l, c.revealBidArgs = none := by
  intro c hc
  cases c <;> first | rfl | exact absurd hc (h _ _ _ _ _)

/-- With the lookups passed, the bid command reports the first amount that fails to parse. -/
theorem bid_result_of_invalid_amount {w : World} {g : Globals} {name : String}
    {rest : List String} {a : Address} {wallet : Wallet} {account : Account}
    (h : BidLookupsPass w g name a wallet account) :
    ((∃ e, w.stringToWei g.auctionBidGasPriceStr = .error e) →
      (auctionBidCmd.Run w g (name :: rest)).result = .error "Invalid gas price") ∧
    ((∃ gp, w.stringToWei g.auctionBidGasPriceStr = .ok gp) →
      (∃ e, w.stringToWei g.auctionBidBidPriceStr = .error e) →
      (auctionBidCmd.Run w g (name :: rest)).result = .error "Invalid bid price") := by
  obtain ⟨hs, hp, ha, hw, hac⟩ := h
  constructor
  · rintro ⟨e, hg⟩
    simp [auctionBidCmd.Run, Exec.bind_def, Exec.andThen, cli.Assert, cli.ErrAssert,
      cli.ErrCheck, cli.Err, Exec.call, hs, hp, ha, hw, hac, hg]
  · rintro ⟨gp, hg⟩ ⟨e, hb⟩
    simp [auctionBidCmd.Run, Exec.bind_def, Exec.andThen, cli.Assert, cli.ErrAssert,
      cli.ErrCheck, cli.Err, Exec.call, hs, hp, ha, hw, hac, hg, hb]

/-- With the lookups passed, the reveal command reports the first amount that fails to
parse. -/
theorem reveal_result_of_invalid_amount {w : World} {g : Globals} {name : String}
    {rest : List String} {a : Address} {wallet : Wallet} {account : Account}
    (h : RevealLookupsPass w g name a wallet account) :
    ((∃ e, w.stringToWei g.gasPriceStr = .error e) →
      (auctionRevealCmd.Run w g (name :: rest)).result = .error "Invalid gas price") ∧
    ((∃ gp, w.stringToWei g.gasPriceStr = .ok gp) →
      (∃ e, w.stringToWei g.auctionRevealBidPriceStr = .error e) →
      (auctionRevealCmd.Run w g (name :: rest)).result = .error "Invalid bid price") := by
  obtain ⟨hs, hp, ha, hwa⟩ := h
  constructor
  · rintro ⟨e, hg⟩
    simp [auctionRevealCmd.Run, inState, Exec.bind_def, Exec.andThen, cli.Assert,
      cli.ErrCheck, cli.Err, Exec.call, hs, hp, ha, hwa, hg]
  · rintro ⟨gp, hg⟩ ⟨e, hb⟩
    simp [auctionRevealCmd.Run, inState, Exec.bind_def, Exec.andThen, cli.Assert,
      cli.ErrCheck, cli.Err, Exec.call, hs, hp, ha, hwa, hg, hb]

/-- With the lookups passed, the calls the bid command has made when it reports an amount
that fails to parse are the five lookups followed by the parsing. -/
theorem bid_trace_of_invalid_amount {w : World} {g : Globals} {name : String}
    {rest : List String} {a : Address} {wallet : Wallet} {account : Account}
    (h : BidLookupsPass w g name a wallet account) :
    ((∃ e, w.stringToWei g.auctionBidGasPriceStr = .error e) →
      (auctionBidCmd.Run w g (name :: rest)).trace =
        bidLookups w g name a wallet ++ [.stringToWei g.auctionBidGasPriceStr]) ∧
    ((∃ gp, w.stringToWei g.auctionBidGasPriceStr = .ok gp) →
      (∃ e, w.stringToWei g.auctionBidBidPriceStr = .error e) →
      (auctionBidCmd.Run w g (name :: rest)).trace =
        bidLookups w g name a wallet ++
          [.stringToWei g.auctionBidGasPriceStr, .stringToWei g.auctionBidBidPriceStr]) := by
  obtain ⟨hs, hp, ha, hw, hac⟩ := h
  constructor
  · rintro ⟨e, hg⟩
    simp [auctionBidCmd.Run, Exec.bind_def, Exec.andThen, cli.Assert, cli.ErrAssert,
      cli.ErrCheck, cli.Err, Exec.call, hs, hp, ha, hw, hac, hg, bidLookups]
  · rintro ⟨gp, hg⟩ ⟨e, hb⟩
    simp [auctionBidCmd.Run, Exec.bind_def, Exec.andThen, cli.Assert, cli.ErrAssert,
      cli.ErrCheck, cli.Err, Exec.call, hs, hp, ha, hw, hac, hg, hb, bidLookups]

/-- The bid command reports `Invalid gas price` or `Invalid bid price` only after the five
lookups have passed. -/
theorem bid_lookups_of_invalid_amount {w : World} {g : Globals} {args : List String}
    (h : (auctionBidCmd.Run w g args).result = .error "Invalid gas price" ∨
      (auctionBidCmd.Run w g args).result = .error "Invalid bid price") :
    ∃ name rest a wallet account, args = name :: rest ∧
      BidLookupsPass w g name a wallet account := by
  cases args with
  | nil =>
    by_cases hs : g.auctionStartSalt = "" <;>
      simp [auctionBidCmd.Run, Exec.bind_def, Exec.andThen, cli.Assert, cli.Err, Exec.call,
        indexOutOfRange, hs] at h
  | cons name rest =>
    refine ⟨name, rest, ?_⟩
    rcases h with h | h <;>
    · rcases bid_result_error h with ⟨-, he⟩ | ⟨hs, ⟨-, he⟩ | ⟨hp, ⟨-, he⟩ | ⟨a, ha, h3⟩⟩⟩
      · simp at he
      · simp at he
      · simp at he
      · rcases h3 with ⟨-, he⟩ | ⟨wl, hw, ⟨-, he⟩ | ⟨ac, hac, -⟩⟩
        · simp at he
        · simp at he
        · exact ⟨a, wl, ac, rfl, hs, hp, ha, hw, hac⟩

theorem outputs_not_newBid {c : Call} (h : c.isOutput = true) :
    c.newBidArgs = none ∧ c.newBidSessionSansValue = none := by
  cases c <;> first | exact ⟨rfl, rfl⟩ | cases h

theorem newBidSession_eq_none_of_not_mem {l : List Call}
    (h : ∀ s n a v salt, Call.newBid s n a v salt ∉ l) :
    ∀ c ∈ l, c.newBidSessionSansValue = none := by
  intro c hc
  cases c <;> first | rfl | exact absurd hc (h _ _ _ _ _)

/-- The `NewBid` arguments in a run of the bid command: none, or exactly one tuple when
every check passes. -/
theorem bid_newBid_calls (w : World) (g : Globals) (name : String) (rest : List String) :
    ((∃ a wallet account gasPrice v, BidChecksPass w g name a wallet account gasPrice v ∧
        (auctionBidCmd.Run w g (name :: rest)).trace.filterMap Call.newBidArgs =
          [(name, a, v, g.auctionBidSalt)] ∧
        (auctionBidCmd.Run w g (name :: rest)).trace.filterMap Call.newBidSessionSansValue =
          [(bidSession w g wallet account gasPrice v).setValue 0]) ∨
     ((¬ ∃ a wallet account gasPrice v, BidChecksPass w g name a wallet account gasPrice v) ∧
        (auctionBidCmd.Run w g (name :: rest)).trace.filterMap Call.newBidArgs = [] ∧
        (auctionBidCmd.Run w g (name :: rest)).trace.filterMap Call.newBidSessionSansValue
          = [])) := by
  by_cases hex : ∃ a wallet account gasPrice v, BidChecksPass w g name a wallet account gasPrice v
  · left
    obtain ⟨a, wl, ac, gp, v, hch⟩ := hex
    obtain ⟨tail, ht, hout, -⟩ := bid_run_of_checks hch rest
    refine ⟨a, wl, ac, gp, v, hch, ?_, ?_⟩
    · have htail : tail.filterMap Call.newBidArgs = [] :=
        List.filterMap_eq_nil_iff.mpr fun c hc => (outputs_not_newBid (hout c hc)).1
      rw [ht, List.filterMap_append, htail]
      simp [bidCalls, Call.newBidArgs]
    · have htail : tail.filterMap Call.newBidSessionSansValue = [] :=
        List.filterMap_eq_nil_iff.mpr fun c hc => (outputs_not_newBid (hout c hc)).2
      rw [ht, List.filterMap_append, htail]
      simp [bidCalls, Call.newBidSessionSansValue]
  · right
    have hno : ∀ s n a v salt,
        Call.newBid s n a v salt ∉ (auctionBidCmd.Run w g (name :: rest)).trace := by
      intro s n a v salt hmem
      obtain ⟨⟨rest', hargs⟩, -, wl, ac, gp, hch, -⟩ := newBid_mem_bid hmem
      cases hargs
      exact hex ⟨a, wl, ac, gp, v, hch⟩
    exact ⟨hex, List.filterMap_eq_nil_iff.mpr (newBidArgs_eq_none_of_not_mem hno),
      List.filterMap_eq_nil_iff.mpr (newBidSession_eq_none_of_not_mem hno)⟩

theorem mem_trace_execute {run : World → Globals → List String → Exec Unit}
    {cmdName : String} {w : World} {g : Globals} {args : List String} {c : Call}
    (h : c ∈ (execute run cmdName w g args).trace) :
    c ∈ (persistentPreRun w g cmdName args).trace ∨
    ∃ g' args', (persistentPreRun w g cmdName args).result = .ok (g', args') ∧
      c ∈ (run w g' args').trace := by
  unfold execute at h
  rw [Exec.mem_trace_bind] at h
  rcases h with h | ⟨⟨g', args'⟩, hr, hc⟩
  · exact Or.inl h
  · exact Or.inr ⟨g', args', hr, hc⟩

/-- The tuple a full bid invocation hands to `NewBid`: the normalised name, the resolved
address, the parsed bid price and the salt flag. -/
theorem newBidArgs_of_execute {w : World} {g : Globals} {nameArg : String}
    {rest : List String} {t : String × Address × Int × String}
    (h : t ∈ (execute auctionBidCmd.Run "bid" w g (nameArg :: rest)).trace.filterMap
      Call.newBidArgs) :
    ∃ a v, w.resolve g.auctionBidAddressStr = .ok a ∧
      w.stringToWei g.auctionBidBidPriceStr = .ok v ∧
      t = (normaliseName nameArg, a, v, g.auctionBidSalt) := by
  obtain ⟨c, hc, hct⟩ := List.mem_filterMap.mp h
  cases c <;> try (simp [Call.newBidArgs] at hct)
  rename_i s n a v salt
  subst hct
  rcases mem_trace_execute hc with hpre | ⟨g', args', hr, hrun⟩
  · rcases mem_trace_persistentPreRun hpre with h1 | h1 | h1 <;> cases h1
  · obtain ⟨-, -, -, id, -, rfl, rfl⟩ := (persistentPreRun_result_ok (by decide)).mp hr
    obtain ⟨⟨rest', hargs⟩, rfl, wl, ac, gp, ⟨⟨-, -, ha, -, -⟩, -, hv⟩, -⟩ := newBid_mem_bid hrun
    cases hargs
    exact ⟨a, v, ha, hv, rfl⟩

/-- The tuple a full reveal invocation hands to `RevealBid`: the normalised name, the
resolved address, the parsed bid price and the salt flag. -/
theorem revealBidArgs_of_execute {w : World} {g : Globals} {nameArg : String}
    {rest : List String} {t : String × Address × Int × String}
    (h : t ∈ (execute auctionRevealCmd.Run "reveal" w g (nameArg :: rest)).trace.filterMap
      Call.revealBidArgs) :
    ∃ a v, w.resolve g.auctionRevealAddressStr = .ok a ∧
      w.stringToWei g.auctionRevealBidPriceStr = .ok v ∧
      t = (normaliseName nameArg, a, v, g.auctionRevealSalt) := by
  obtain ⟨c, hc, hct⟩ := List.mem_filterMap.mp h
  cases c <;> try (simp [Call.revealBidArgs] at hct)
  rename_i s n a v salt
  subst hct
  rcases mem_trace_execute hc with hpre | ⟨g', args', hr, hrun⟩
  · rcases mem_trace_persistentPreRun hpre with h1 | h1 | h1 <;> cases h1
  · obtain ⟨-, -, -, id, -, rfl, rfl⟩ := (persistentPreRun_result_ok (by decide)).mp hr
    obtain ⟨⟨rest', hargs⟩, rfl, wl, ac, gp, ⟨⟨-, -, ha, -⟩, -, hv⟩, -⟩ :=
      revealBid_mem_reveal hrun
    cases hargs
    exact ⟨a, v, ha, hv, rfl⟩

/-! ## The claims -/

/-- C1. In the bid command, whenever `NewBid` is called, its value argument `v` is the parsed
bid string and the transaction value set on the session is the parsed mask when the mask
string parses to an amount that is at least `v`, and `v` otherwise (the mask string fails to
parse, or parses to less than `v`). -/
theorem bid_transaction_value (w : World) (g : Globals) (args : List String) (s : Session)
    (n : String) (a : Address) (v : Int) (salt : String)
    (h : Call.newBid s n a v salt ∈ (auctionBidCmd.Run w g args).trace) :
    w.stringToWei g.auctionBidBidPriceStr = .ok v ∧
    s.value = ResolveMask v (ptrOf (w.stringToWei g.auctionBidMaskPriceStr)) ∧
    (∀ e, w.stringToWei g.auctionBidMaskPriceStr = .error e → s.value = v) ∧
    (∀ m, w.stringToWei g.auctionBidMaskPriceStr = .ok m → m < v → s.value = v) ∧
    (∀ m, w.stringToWei g.auctionBidMaskPriceStr = .ok m → v ≤ m → s.value = m) := by
  obtain ⟨-, -, wl, ac, gp, ⟨-, -, hv⟩, rfl⟩ := newBid_mem_bid h
  have hval : (bidSession w g wl ac gp v).value =
      ResolveMask v (ptrOf (w.stringToWei g.auctionBidMaskPriceStr)) := by
    rw [← bidMask_eq_ResolveMask]; rfl
  refine ⟨hv, hval, ?_, ?_, ?_⟩
  · intro e he
    rw [hval, he]; rfl
  · intro m hm hlt
    rw [hval, hm]
    simp [ResolveMask, ptrOf, not_le.mpr hlt]
  · intro m hm hle
    rw [hval, hm]
    simp [ResolveMask, ptrOf, hle]

/-- C1, on the scenario of the spec: a bid of 1000 with a mask of 500 is sent with
transaction value 1000. -/
theorem bid_transaction_value_witness :
    ∃ s, Call.newBid s "a.eth" ⟨7⟩ 1000 "s" ∈
        (auctionBidCmd.Run (sampleWorld "Bidding") (sampleGlobals "500" "s" "x") ["a.eth"]).trace ∧
      s.value = 1000 :=
  ⟨(CreateRegistrarSession 0 ⟨3⟩ ⟨4⟩ "secret" (some ⟨1⟩) (some 500000) 20).setValue 1000,
    by decide,
    (bid_transaction_value (sampleWorld "Bidding") (sampleGlobals "500" "s" "x") ["a.eth"]
      _ "a.eth" ⟨7⟩ 1000 "s" (by decide)).2.2.2.1 500 rfl (by decide)⟩

/-- C2. Every `NewBid` call of the bid command is funded: the transaction value set on the
session is at least the bid value passed to `NewBid`, whatever the mask string holds. -/
theorem bid_never_underfunded (w : World) (g : Globals) (args : List String) (s : Session)
    (n : String) (a : Address) (v : Int) (salt : String)
    (h : Call.newBid s n a v salt ∈ (auctionBidCmd.Run w g args).trace) :
    v ≤ s.value := by
  obtain ⟨-, -, wl, ac, gp, -, rfl⟩ := newBid_mem_bid h
  show v ≤ bidMask (w.stringToWei g.auctionBidMaskPriceStr) v
  rw [bidMask_eq_ResolveMask]
  cases ptrOf (w.stringToWei g.auctionBidMaskPriceStr) with
  | none => exact le_refl v
  | some m =>
    simp only [ResolveMask]
    split_ifs with hm
    · exact hm
    · exact le_refl v

/-- C2, with no mask given (the flag default, the empty string, which does not parse): the
bid of 1000 is sent with a transaction value that is at least 1000. -/
theorem bid_never_underfunded_witness :
    ∃ s, Call.newBid s "a.eth" ⟨7⟩ 1000 "s" ∈
        (auctionBidCmd.Run (sampleWorld "Bidding") (sampleGlobals "" "s" "x") ["a.eth"]).trace ∧
      (1000 : Int) ≤ s.value :=
  ⟨(CreateRegistrarSession 0 ⟨3⟩ ⟨4⟩ "secret" (some ⟨1⟩) (some 500000) 20).setValue 1000,
    by decide,
    bid_never_underfunded (sampleWorld "Bidding") (sampleGlobals "" "s" "x") ["a.eth"]
      _ "a.eth" ⟨7⟩ 1000 "s" (by decide)⟩

/-- C3. Each command is gated by its phase check.  When the registrar does not report the
name in the phase the command requires (`Bidding` for bid, `Revealing` for reveal, `Owned`
for resolver), be it another phase or a failed query, the command exits with a failure, the
only calls it has made are those of the phase check itself, and its library call (`NewBid`,
`RevealBid`, `Resolver`) is never reached. -/
theorem phase_check_gates_commands (w : World) (g : Globals) (name : String)
    (rest : List String) :
    (w.nameInState (ptrOf w.registrarContract) name "Bidding" ≠ .ok true →
      (auctionBidCmd.Run w g (name :: rest)).Failed ∧
      (∀ c ∈ (auctionBidCmd.Run w g (name :: rest)).trace,
        c = .registrarContract ∨ c = .nameInState (ptrOf w.registrarContract) name "Bidding") ∧
      (∀ c ∈ (auctionBidCmd.Run w g (name :: rest)).trace, c.newBidArgs = none)) ∧
    (w.nameInState g.registrarContract name "Revealing" ≠ .ok true →
      (auctionRevealCmd.Run w g (name :: rest)).Failed ∧
      (∀ c ∈ (auctionRevealCmd.Run w g (name :: rest)).trace,
        c = .nameInState g.registrarContract name "Revealing") ∧
      (∀ c ∈ (auctionRevealCmd.Run w g (name :: rest)).trace, c.revealBidArgs = none)) ∧
    (w.nameInState (ptrOf w.registrarContract) name "Owned" ≠ .ok true →
      (resolverCmd.Run w g (name :: rest)).Failed ∧
      (∀ c ∈ (resolverCmd.Run w g (name :: rest)).trace,
        c = .registrarContract ∨ c = .nameInState (ptrOf w.registrarContract) name "Owned") ∧
      (∀ c ∈ (resolverCmd.Run w g (name :: rest)).trace, c.isResolver = false)) := by
  refine ⟨fun h => ?_, fun h => ?_, fun h => ?_⟩
  · have ht : ∀ c ∈ (auctionBidCmd.Run w g (name :: rest)).trace,
        c = .registrarContract ∨ c = .nameInState (ptrOf w.registrarContract) name "Bidding" := by
      intro c hc
      simp [auctionBidCmd.Run, Exec.mem_trace_bind, cli.result_Assert_ok,
        cli.result_ErrAssert_ok, h] at hc
      tauto
    refine ⟨?_, ht, ?_⟩
    · rw [Exec.failed_iff]
      intro u hu
      simp [auctionBidCmd.Run, Exec.result_bind_ok, cli.result_Assert_ok,
        cli.result_ErrAssert_ok, h] at hu
    · intro c hc
      rcases ht c hc with rfl | rfl <;> rfl
  · have ht : ∀ c ∈ (auctionRevealCmd.Run w g (name :: rest)).trace,
        c = .nameInState g.registrarContract name "Revealing" := by
      intro c hc
      simp [auctionRevealCmd.Run, Exec.mem_trace_bind, cli.result_Assert_ok,
        mem_trace_inState, result_inState, h] at hc
      tauto
    refine ⟨?_, ht, ?_⟩
    · rw [Exec.failed_iff]
      intro u hu
      simp [auctionRevealCmd.Run, Exec.result_bind_ok, cli.result_Assert_ok,
        result_inState, h] at hu
    · intro c hc
      rw [ht c hc]; rfl
  · have ht : ∀ c ∈ (resolverCmd.Run w g (name :: rest)).trace,
        c = .registrarContract ∨ c = .nameInState (ptrOf w.registrarContract) name "Owned" := by
      intro c hc
      simp [resolverCmd.Run, Exec.mem_trace_bind,
        cli.result_ErrAssert_ok, h] at hc
      tauto
    refine ⟨?_, ht, ?_⟩
    · rw [Exec.failed_iff]
      intro u hu
      simp [resolverCmd.Run, Exec.result_bind_ok,
        cli.result_ErrAssert_ok, h] at hu
    · intro c hc
      rcases ht c hc with rfl | rfl <;> rfl

/-- C3, on sample runs: bidding on a name in phase `Revealing`, revealing on a name in phase
`Bidding`, asking for the resolver of a name in phase `Bidding`, and asking for the resolver
when the phase query fails, all end in failure. -/
theorem phase_check_gates_commands_witness :
    (auctionBidCmd.Run (sampleWorld "Revealing") (sampleGlobals "" "s" "x") ["enstest.eth"]).Failed ∧
    (auctionRevealCmd.Run (sampleWorld "Bidding") (sampleGlobals "" "s" "x") ["enstest.eth"]).Failed ∧
    (resolverCmd.Run (sampleWorld "Bidding") (sampleGlobals "" "s" "x") ["enstest.eth"]).Failed ∧
    (resolverCmd.Run offlineWorld (sampleGlobals "" "s" "x") ["enstest.eth"]).Failed :=
  ⟨((phase_check_gates_commands (sampleWorld "Revealing") (sampleGlobals "" "s" "x")
      "enstest.eth" []).1 (by decide)).1,
   ((phase_check_gates_commands (sampleWorld "Bidding") (sampleGlobals "" "s" "x")
      "enstest.eth" []).2.1 (by decide)).1,
   ((phase_check_gates_commands (sampleWorld "Bidding") (sampleGlobals "" "s" "x")
      "enstest.eth" []).2.2 (by decide)).1,
   ((phase_check_gates_commands offlineWorld (sampleGlobals "" "s" "x")
      "enstest.eth" []).2.2 (by decide)).1⟩

/-- C4, the code at the failing input.  The salt check of the bid command reads
`auctionStartSalt`, not `auctionBidSalt`: with the former set and the latter empty the run
passes the check, calls `NewBid` with the empty salt and returns; with the former empty and
a salt given to the bid command the run exits with `Salt is required`. -/
theorem bid_salt_check_reads_start_salt :
    (sampleGlobals "" "" "x").auctionBidSalt = "" ∧
    (auctionBidCmd.Run (sampleWorld "Bidding") (sampleGlobals "" "" "x") ["enstest.eth"]).result
      = .ok () ∧
    (auctionBidCmd.Run (sampleWorld "Bidding") (sampleGlobals "" "" "x")
      ["enstest.eth"]).trace.filterMap Call.newBidArgs = [("enstest.eth", ⟨7⟩, 1000, "")] ∧
    (sampleGlobals "" "s" "").auctionBidSalt = "s" ∧
    auctionBidCmd.Run (sampleWorld "Bidding") (sampleGlobals "" "s" "") ["enstest.eth"]
      = ⟨[], .error "Salt is required"⟩ := by
  refine ⟨rfl, by decide, by decide, rfl, rfl⟩

/-- C5. For a command other than `help` and a non-empty name argument `n`: whenever
`persistentPreRun` returns, the argument slice it hands on starts with `n` itself when `n`
ends with `.eth` and with `n ++ ".eth"` otherwise; it does return when the log file, the
connection and the network id are obtained; the command run after it sees that name; the
name ends with `.eth`; and normalising it again changes nothing. -/
theorem persistentPreRun_normalises_name (w : World) (g : Globals) (cmdName n : String)
    (rest : List String) (hn : n ≠ "") (hc : cmdName ≠ "help") :
    (∀ g' args', (persistentPreRun w g cmdName (n :: rest)).result = .ok (g', args') →
      args' = normaliseName n :: rest) ∧
    ((g.logFile = "" ∨ w.openFile g.logFile = .ok ()) → w.dial g.connection = .ok () →
      ∀ id, w.networkID = .ok id →
      (persistentPreRun w g cmdName (n :: rest)).result =
        .ok (g.setChainID id, normaliseName n :: rest)) ∧
    (∀ run, execute run cmdName w g (n :: rest) =
      persistentPreRun w g cmdName (n :: rest) >>= fun p => run w p.1 (normaliseName n :: rest)) ∧
    (hasSuffix n ".eth" = true → normaliseName n = n) ∧
    (hasSuffix n ".eth" = false → normaliseName n = n ++ ".eth") ∧
    (∃ stem : String, normaliseName n = stem ++ ".eth") ∧
    normaliseName (normaliseName n) = normaliseName n := by
  refine ⟨?_, ?_, ?_, normaliseName_of_hasSuffix, normaliseName_of_not_hasSuffix,
    (hasSuffix_iff _ _).mp (hasSuffix_normaliseName n),
    normaliseName_of_hasSuffix (hasSuffix_normaliseName n)⟩
  · intro g' args' h
    obtain ⟨-, -, -, id, -, -, rfl⟩ := (persistentPreRun_result_ok hc).mp h
    rfl
  · intro hl hd id hid
    exact (persistentPreRun_result_ok hc).mpr ⟨hn, hl, hd, id, hid, rfl, rfl⟩
  · intro run
    unfold execute
    simp only [Exec.bind_def, Exec.andThen]
    rcases h : (persistentPreRun w g cmdName (n :: rest)).result with e | ⟨g', args'⟩
    · rfl
    · obtain ⟨-, -, -, id, -, -, rfl⟩ := (persistentPreRun_result_ok hc).mp h
      rfl

/-- C5, on sample names: `enstest` becomes `enstest.eth`, and `enstest.eth` stays as it is. -/
theorem persistentPreRun_normalises_name_witness :
    (persistentPreRun (sampleWorld "Bidding") (sampleGlobals "" "s" "x") "bid" ["enstest"]).result
      = .ok ((sampleGlobals "" "s" "x").setChainID 1, ["enstest.eth"]) ∧
    normaliseName "enstest.eth" = "enstest.eth" :=
  ⟨(persistentPreRun_normalises_name (sampleWorld "Bidding") (sampleGlobals "" "s" "x") "bid"
      "enstest" [] (by decide) (by decide)).2.1 (Or.inl rfl) rfl 1 rfl,
   (persistentPreRun_normalises_name (sampleWorld "Bidding") (sampleGlobals "" "s" "x") "bid"
      "enstest.eth" [] (by decide) (by decide)).2.2.2.1 (by decide)⟩

/-- C6, as stated, fails.  A mask string that does not parse does not stop the bid command:
in the sample world the mask `abc` is malformed, yet the run returns normally after calling
`NewBid` with the bid value as transaction value. -/
theorem malformed_mask_still_bids :
    (sampleWorld "Bidding").stringToWei "abc" = .error "failed to parse amount" ∧
    (auctionBidCmd.Run (sampleWorld "Bidding") (sampleGlobals "abc" "s" "x")
      ["enstest.eth"]).result = .ok () ∧
    (auctionBidCmd.Run (sampleWorld "Bidding") (sampleGlobals "abc" "s" "x")
      ["enstest.eth"]).trace.filterMap Call.newBidArgs = [("enstest.eth", ⟨7⟩, 1000, "s")] ∧
    (auctionBidCmd.Run (sampleWorld "Bidding") (sampleGlobals "abc" "s" "x")
      ["enstest.eth"]).trace.filterMap Call.newBidTxValue = [1000] := by
  refine ⟨rfl, by decide, by decide, by decide⟩

/-- C6, amended.  A mask string that does not parse is treated as no mask: when every other
check of the bid command passes, `NewBid` is called, with the bid value as transaction
value, and the command fails only if `NewBid` itself does. -/
theorem malformed_mask_means_no_mask (w : World) (g : Globals) (name : String)
    (rest : List String) (a : Address) (wallet : Wallet) (account : Account)
    (gasPrice v : Int) (e : String)
    (hmask : w.stringToWei g.auctionBidMaskPriceStr = .error e)
    (hchecks : BidChecksPass w g name a wallet account gasPrice v) :
    Call.newBid (bidSession w g wallet account gasPrice v) name a v g.auctionBidSalt ∈
      (auctionBidCmd.Run w g (name :: rest)).trace ∧
    (bidSession w g wallet account gasPrice v).value = v ∧
    ((auctionBidCmd.Run w g (name :: rest)).result = .ok () ↔
      ∃ tx, w.newBid (bidSession w g wallet account gasPrice v) name a v g.auctionBidSalt
        = .ok tx) := by
  obtain ⟨tail, ht, -, hr⟩ := bid_run_of_checks hchecks rest
  refine ⟨?_, ?_, hr⟩
  · rw [ht]
    simp [bidCalls]
  · simp [bidSession, Session.setValue, hmask, bidMask]

/-- C6 amended, on the sample run with the malformed mask `abc`. -/
theorem malformed_mask_means_no_mask_witness :
    Call.newBid (bidSession (sampleWorld "Bidding") (sampleGlobals "abc" "s" "x") ⟨3⟩ ⟨4⟩ 20 1000)
        "enstest.eth" ⟨7⟩ 1000 "s" ∈
      (auctionBidCmd.Run (sampleWorld "Bidding") (sampleGlobals "abc" "s" "x")
        ["enstest.eth"]).trace ∧
    (bidSession (sampleWorld "Bidding") (sampleGlobals "abc" "s" "x") ⟨3⟩ ⟨4⟩ 20 1000).value
      = 1000 :=
  have h := malformed_mask_means_no_mask (sampleWorld "Bidding") (sampleGlobals "abc" "s" "x")
    "enstest.eth" [] ⟨7⟩ ⟨3⟩ ⟨4⟩ 20 1000 "failed to parse amount" rfl
    ⟨⟨by decide, rfl, rfl, rfl, rfl⟩, rfl, rfl⟩
  ⟨h.1, h.2.1⟩

/-- C7. When the gas-price string or the bid-value string fails to parse as an amount, the
bid command exits with a failure and never calls `NewBid`, and the reveal command exits with
a failure and never calls `RevealBid`.  When the checks that come before the parsing have
passed, the failure reported is `Invalid gas price` if the gas price is the malformed one
and `Invalid bid price` otherwise. -/
theorem invalid_amount_stops_bid_and_reveal (w : World) (g : Globals) (args : List String) :
    (((∃ e, w.stringToWei g.auctionBidGasPriceStr = .error e) ∨
        ∃ e, w.stringToWei g.auctionBidBidPriceStr = .error e) →
      (auctionBidCmd.Run w g args).Failed ∧
      (∀ c ∈ (auctionBidCmd.Run w g args).trace, c.newBidArgs = none) ∧
      ∀ name rest a wallet account, args = name :: rest →
        BidLookupsPass w g name a wallet account →
        ((∃ e, w.stringToWei g.auctionBidGasPriceStr = .error e) →
          (auctionBidCmd.Run w g args).result = .error "Invalid gas price") ∧
        ((∃ gp, w.stringToWei g.auctionBidGasPriceStr = .ok gp) →
          (auctionBidCmd.Run w g args).result = .error "Invalid bid price")) ∧
    (((∃ e, w.stringToWei g.gasPriceStr = .error e) ∨
        ∃ e, w.stringToWei g.auctionRevealBidPriceStr = .error e) →
      (auctionRevealCmd.Run w g args).Failed ∧
      (∀ c ∈ (auctionRevealCmd.Run w g args).trace, c.revealBidArgs = none) ∧
      ∀ name rest a wallet account, args = name :: rest →
        RevealLookupsPass w g name a wallet account →
        ((∃ e, w.stringToWei g.gasPriceStr = .error e) →
          (auctionRevealCmd.Run w g args).result = .error "Invalid gas price") ∧
        ((∃ gp, w.stringToWei g.gasPriceStr = .ok gp) →
          (auctionRevealCmd.Run w g args).result = .error "Invalid bid price")) := by
  constructor
  · intro hbad
    refine ⟨?_, ?_, ?_⟩
    · rw [Exec.failed_iff]
      intro u hu
      obtain ⟨_, _, _, _, _, gp, v, -, -, hg, hb⟩ := bid_result_ok hu
      rcases hbad with ⟨e, he⟩ | ⟨e, he⟩
      · rw [hg] at he; cases he
      · rw [hb] at he; cases he
    · apply newBidArgs_eq_none_of_not_mem
      intro s n a v salt hmem
      obtain ⟨-, -, _, _, gp, ⟨-, hg, hb⟩, -⟩ := newBid_mem_bid hmem
      rcases hbad with ⟨e, he⟩ | ⟨e, he⟩
      · rw [hg] at he; cases he
      · rw [hb] at he; cases he
    · rintro name rest a wallet account rfl hl
      refine ⟨(bid_result_of_invalid_amount hl).1, fun hgp => ?_⟩
      refine (bid_result_of_invalid_amount hl).2 hgp ?_
      rcases hbad with ⟨e, he⟩ | hb
      · obtain ⟨gp, hg⟩ := hgp
        rw [hg] at he; cases he
      · exact hb
  · intro hbad
    refine ⟨?_, ?_, ?_⟩
    · rw [Exec.failed_iff]
      intro u hu
      obtain ⟨_, _, _, _, _, gp, v, -, -, hg, hb⟩ := reveal_result_ok hu
      rcases hbad with ⟨e, he⟩ | ⟨e, he⟩
      · rw [hg] at he; cases he
      · rw [hb] at he; cases he
    · apply revealBidArgs_eq_none_of_not_mem
      intro s n a v salt hmem
      obtain ⟨-, -, _, _, gp, ⟨-, hg, hb⟩, -⟩ := revealBid_mem_reveal hmem
      rcases hbad with ⟨e, he⟩ | ⟨e, he⟩
      · rw [hg] at he; cases he
      · rw [hb] at he; cases he
    · rintro name rest a wallet account rfl hl
      refine ⟨(reveal_result_of_invalid_amount hl).1, fun hgp => ?_⟩
      refine (reveal_result_of_invalid_amount hl).2 hgp ?_
      rcases hbad with ⟨e, he⟩ | hb
      · obtain ⟨gp, hg⟩ := hgp
        rw [hg] at he; cases he
      · exact hb

/-- C7, on sample runs: the bid command with the gas price `twenty` exits with
`Invalid gas price`, and the reveal command with the bid value `a lot` exits with
`Invalid bid price`. -/
theorem invalid_amount_stops_bid_and_reveal_witness :
    (auctionBidCmd.Run (sampleWorld "Bidding") badGasGlobals ["enstest.eth"]).result
      = .error "Invalid gas price" ∧
    (auctionRevealCmd.Run (sampleWorld "Revealing") badBidGlobals ["enstest.eth"]).result
      = .error "Invalid bid price" :=
  ⟨(((invalid_amount_stops_bid_and_reveal (sampleWorld "Bidding") badGasGlobals
      ["enstest.eth"]).1 (Or.inl ⟨_, rfl⟩)).2.2 "enstest.eth" [] ⟨7⟩ ⟨3⟩ ⟨4⟩ rfl
      ⟨by decide, rfl, rfl, rfl, rfl⟩).1 ⟨_, rfl⟩,
   (((invalid_amount_stops_bid_and_reveal (sampleWorld "Revealing") badBidGlobals
      ["enstest.eth"]).2 (Or.inr ⟨_, rfl⟩)).2.2 "enstest.eth" [] ⟨7⟩ ⟨3⟩ ⟨4⟩ rfl
      ⟨by decide, rfl, rfl, rfl⟩).2 ⟨20, rfl⟩⟩

/-- C8, as stated, fails.  With the malformed gas price `twenty` the bid command has already
looked up the registrar contract, queried the phase, resolved the address and fetched the
wallet and the account when it exits with `Invalid gas price`. -/
theorem invalid_gas_price_found_after_lookups :
    (sampleWorld "Bidding").stringToWei badGasGlobals.auctionBidGasPriceStr
      = .error "failed to parse amount" ∧
    auctionBidCmd.Run (sampleWorld "Bidding") badGasGlobals ["enstest.eth"] =
      ⟨[.registrarContract,
        .nameInState (some ⟨1⟩) "enstest.eth" "Bidding",
        .resolve "0x5FfC014343cd971B7eb70732021E26C35B744cc4",
        .obtainWallet 0 ⟨7⟩,
        .obtainAccount ⟨3⟩ ⟨7⟩ "secret",
        .stringToWei "twenty"],
       .error "Invalid gas price"⟩ ∧
    ¬ ∀ c ∈ (auctionBidCmd.Run (sampleWorld "Bidding") badGasGlobals ["enstest.eth"]).trace,
      c.isLookup = false := by
  refine ⟨rfl, rfl, by decide⟩

/-- C8, amended.  A malformed gas-price or bid-value string is surfaced before the bid is
submitted, not before the lookups: `NewBid` is never called, and when the command reports
`Invalid gas price` or `Invalid bid price` it has by then made the registrar-contract
lookup, the phase query, the address resolution and the wallet and account lookups, all of
which passed, and after them only parsed amounts. -/
theorem invalid_amount_found_after_lookups (w : World) (g : Globals) (args : List String)
    (hbad : (∃ e, w.stringToWei g.auctionBidGasPriceStr = .error e) ∨
      ∃ e, w.stringToWei g.auctionBidBidPriceStr = .error e) :
    (∀ c ∈ (auctionBidCmd.Run w g args).trace, c.newBidArgs = none) ∧
    ((auctionBidCmd.Run w g args).result = .error "Invalid gas price" ∨
      (auctionBidCmd.Run w g args).result = .error "Invalid bid price" →
      ∃ name rest a wallet account, args = name :: rest ∧
        BidLookupsPass w g name a wallet account ∧
        ((auctionBidCmd.Run w g args).trace =
            bidLookups w g name a wallet ++ [.stringToWei g.auctionBidGasPriceStr] ∨
         (auctionBidCmd.Run w g args).trace =
            bidLookups w g name a wallet ++
              [.stringToWei g.auctionBidGasPriceStr, .stringToWei g.auctionBidBidPriceStr])) := by
  constructor
  · apply newBidArgs_eq_none_of_not_mem
    intro s n a v salt hmem
    obtain ⟨-, -, _, _, gp, ⟨-, hg, hb⟩, -⟩ := newBid_mem_bid hmem
    rcases hbad with ⟨e, he⟩ | ⟨e, he⟩
    · rw [hg] at he; cases he
    · rw [hb] at he; cases he
  · intro hres
    obtain ⟨name, rest, a, wl, ac, rfl, hl⟩ := bid_lookups_of_invalid_amount hres
    refine ⟨name, rest, a, wl, ac, rfl, hl, ?_⟩
    cases hg : w.stringToWei g.auctionBidGasPriceStr with
    | error e => exact Or.inl ((bid_trace_of_invalid_amount hl).1 ⟨e, hg⟩)
    | ok gp =>
      refine Or.inr ((bid_trace_of_invalid_amount hl).2 ⟨gp, hg⟩ ?_)
      rcases hbad with ⟨e, he⟩ | hb
      · rw [hg] at he; cases he
      · exact hb

/-- C8 amended, on the sample run with the gas price `twenty`: the five lookups come first. -/
theorem invalid_amount_found_after_lookups_witness :
    ∃ name rest a wallet account, ["enstest.eth"] = name :: rest ∧
      BidLookupsPass (sampleWorld "Bidding") badGasGlobals name a wallet account ∧
      ((auctionBidCmd.Run (sampleWorld "Bidding") badGasGlobals ["enstest.eth"]).trace =
          bidLookups (sampleWorld "Bidding") badGasGlobals name a wallet ++
            [.stringToWei badGasGlobals.auctionBidGasPriceStr] ∨
       (auctionBidCmd.Run (sampleWorld "Bidding") badGasGlobals ["enstest.eth"]).trace =
          bidLookups (sampleWorld "Bidding") badGasGlobals name a wallet ++
            [.stringToWei badGasGlobals.auctionBidGasPriceStr,
             .stringToWei badGasGlobals.auctionBidBidPriceStr]) :=
  (invalid_amount_found_after_lookups (sampleWorld "Bidding") badGasGlobals ["enstest.eth"]
    (Or.inl ⟨_, rfl⟩)).2 (Or.inl rfl)

/-- C9. The mask is irrelevant to the commitment inputs.  Two runs of the bid command that
differ only in the mask string make the same `NewBid` calls as far as the arguments
`(name, bidder, value, salt)` go, and on sessions that are equal once the transaction value
is blanked out: the mask reaches nothing but the transaction value. -/
theorem mask_irrelevant_to_commitment (w : World) (g : Globals) (args : List String)
    (mask₁ mask₂ : String) :
    (auctionBidCmd.Run w (g.withMask mask₁) args).trace.filterMap Call.newBidArgs =
      (auctionBidCmd.Run w (g.withMask mask₂) args).trace.filterMap Call.newBidArgs ∧
    (auctionBidCmd.Run w (g.withMask mask₁) args).trace.filterMap Call.newBidSessionSansValue =
      (auctionBidCmd.Run w (g.withMask mask₂) args).trace.filterMap
        Call.newBidSessionSansValue := by
  cases args with
  | nil => exact ⟨rfl, rfl⟩
  | cons name rest =>
    rcases bid_newBid_calls w (g.withMask mask₁) name rest with
        ⟨a, wl, ac, gp, v, hch, h1, h1'⟩ | ⟨hno, h1, h1'⟩
    · rcases bid_newBid_calls w (g.withMask mask₂) name rest with
          ⟨a2, wl2, ac2, gp2, v2, hch2, h2, h2'⟩ | ⟨hno2, -, -⟩
      · obtain ⟨⟨-, -, ha, hw, hac⟩, hg, hv⟩ := hch
        obtain ⟨⟨-, -, ha2, hw2, hac2⟩, hg2, hv2⟩ := hch2
        have e1 : a2 = a := Except.ok.inj (ha2.symm.trans ha)
        subst e1
        have e2 : wl2 = wl := Except.ok.inj (hw2.symm.trans hw)
        subst e2
        have e3 : ac2 = ac := Except.ok.inj (hac2.symm.trans hac)
        subst e3
        have e4 : gp2 = gp := Except.ok.inj (hg2.symm.trans hg)
        subst e4
        have e5 : v2 = v := Except.ok.inj (hv2.symm.trans hv)
        subst e5
        rw [h1, h2, h1', h2']
        exact ⟨rfl, rfl⟩
      · exact absurd ⟨a, wl, ac, gp, v, hch⟩ hno2
    · rcases bid_newBid_calls w (g.withMask mask₂) name rest with
          ⟨a2, wl2, ac2, gp2, v2, hch2, -, -⟩ | ⟨-, h2, h2'⟩
      · exact absurd ⟨a2, wl2, ac2, gp2, v2, hch2⟩ hno
      · rw [h1, h2, h1', h2']
        exact ⟨rfl, rfl⟩

/-- C10. A bid can be revealed with the flags it was placed with.  When the reveal command
is given the same name argument, address string, bid-value string and salt as the bid
command was, and the address string and the bid-value string resolve and parse as they did
at bidding time, then any tuple `(name, bidder, value, salt)` handed to `RevealBid` equals
any tuple handed to `NewBid`: the normalised name, the resolved address, the parsed value
and the salt, in this order, whatever the mask (and every other flag) was. -/
theorem reveal_passes_what_bid_passed (wb wr : World) (gb gr : Globals) (nameArg : String)
    (restb restr : List String)
    (haddr : gr.auctionRevealAddressStr = gb.auctionBidAddressStr)
    (hbidstr : gr.auctionRevealBidPriceStr = gb.auctionBidBidPriceStr)
    (hsalt : gr.auctionRevealSalt = gb.auctionBidSalt)
    (hres : wr.resolve gb.auctionBidAddressStr = wb.resolve gb.auctionBidAddressStr)
    (hwei : wr.stringToWei gb.auctionBidBidPriceStr = wb.stringToWei gb.auctionBidBidPriceStr) :
    ∀ tb ∈ (execute auctionBidCmd.Run "bid" wb gb (nameArg :: restb)).trace.filterMap
        Call.newBidArgs,
    ∀ tr ∈ (execute auctionRevealCmd.Run "reveal" wr gr (nameArg :: restr)).trace.filterMap
        Call.revealBidArgs,
      tr = tb ∧
      ∃ a v, wb.resolve gb.auctionBidAddressStr = .ok a ∧
        wb.stringToWei gb.auctionBidBidPriceStr = .ok v ∧
        tb = (normaliseName nameArg, a, v, gb.auctionBidSalt) := by
  intro tb htb tr htr
  obtain ⟨a, v, ha, hv, rfl⟩ := newBidArgs_of_execute htb
  obtain ⟨a', v', ha', hv', rfl⟩ := revealBidArgs_of_execute htr
  rw [haddr, hres, ha] at ha'
  rw [hbidstr, hwei, hv] at hv'
  cases ha'
  cases hv'
  rw [hsalt]
  exact ⟨rfl, a, v, ha, hv, rfl⟩

/-- C10, on sample runs: a bid on `enstest` of 1000 with salt `s`, placed with mask 2000
while the name is in phase `Bidding`, and its reveal with the same flags while the name is
in phase `Revealing`, hand the same tuple to `NewBid` and to `RevealBid`. -/
theorem reveal_passes_what_bid_passed_witness :
    ("enstest.eth", (⟨7⟩ : Address), (1000 : Int), "s") ∈
      (execute auctionBidCmd.Run "bid" (sampleWorld "Bidding") (sampleGlobals "2000" "s" "x")
        ["enstest"]).trace.filterMap Call.newBidArgs ∧
    ("enstest.eth", (⟨7⟩ : Address), (1000 : Int), "s") ∈
      (execute auctionRevealCmd.Run "reveal" (sampleWorld "Revealing")
        (sampleGlobals "" "s" "") ["enstest"]).trace.filterMap Call.revealBidArgs ∧
    ∀ tr ∈ (execute auctionRevealCmd.Run "reveal" (sampleWorld "Revealing")
        (sampleGlobals "" "s" "") ["enstest"]).trace.filterMap Call.revealBidArgs,
      tr = ("enstest.eth", (⟨7⟩ : Address), (1000 : Int), "s") :=
  ⟨by decide, by decide, fun tr htr =>
    (reveal_passes_what_bid_passed (sampleWorld "Bidding") (sampleWorld "Revealing")
      (sampleGlobals "2000" "s" "x") (sampleGlobals "" "s" "") "enstest" [] []
      rfl rfl rfl rfl rfl _ (by decide) tr htr).1⟩

end Ens
